import Mathlib

/-!
Shallow embedding of `controllers/application_controller.go` of the
`mortent/application` repository (an Application reconciler for
Kubernetes-style resources), together with theorems checking the
natural-language specification against it.

Conventions of the embedding:
* External collaborators (the object store client, the REST mapper, the
  pluggable per-resource `status` heuristic) are modelled as a capability
  record `CatalogEnv` of explicit functions; a reconcile pass is a pure
  function of that record.
* Side effects (writes issued, log events emitted) are returned explicitly
  as parts of each function's result.
* Go errors are modelled by `Err`; functions returning `(T, error)` return
  a product with an `Option Err` component.
* The repository pins a pre-1.22 Go toolchain (2020-era controller-runtime
  API, `Reconcile` without a context parameter), so the pre-1.22 loop
  variable rule applies: a `range` clause declares ONE variable per
  execution of the loop statement, reused by every iteration.
-/

/-- A Go error value (only its identity matters to the control flow). -/
structure Err where
  msg : String
deriving DecidableEq, Repr

/-- `metav1.GroupKind`: a (group, kind) selector entry of the Application spec. -/
structure GroupKind where
  group : String
  kind : String
deriving DecidableEq, Repr

/-- `schema.GroupVersionKind`: what `RESTMapper.RESTMapping` resolves a GroupKind to. -/
structure GroupVersionKind where
  group : String
  version : String
  kind : String
deriving DecidableEq, Repr

/-- `metav1.OwnerReference`, with the fields the controller reads or writes. -/
structure OwnerReference where
  apiVersion : String
  kind : String
  name : String
  uid : String
  controller : Bool
  blockOwnerDeletion : Bool
deriving DecidableEq, Repr

/-- `metav1.LabelSelector`: the controller only ever reads `MatchLabels`. -/
structure LabelSelector where
  matchLabels : List (String × String)
deriving DecidableEq, Repr

/-- An `unstructured.Unstructured` component resource, restricted to the fields
the controller accesses: its GroupVersionKind, namespace, name, self link and
owner references.  Its condition data is opaque here: the external `status`
heuristic consumes the whole resource. -/
structure ComponentResource where
  gvk : GroupVersionKind
  nspace : String
  name : String
  selfLink : String
  ownerReferences : List OwnerReference
deriving DecidableEq, Repr

/-- `appv1beta1.ObjectStatus`: group, kind, name, link and the computed
readiness classification of one component resource. -/
structure ObjectStatus where
  group : String
  kind : String
  name : String
  link : String
  status : String
deriving DecidableEq, Repr

/-- `appv1beta1.ComponentList`: the list of per-component statuses. -/
structure ComponentList where
  objects : List ObjectStatus
deriving DecidableEq, Repr

/-- Modelled from the spec: the aggregate readiness condition stored in the
Application status — a readiness truth value, a machine-readable reason and a
human-readable message (the condition type `appv1beta1` declares outside
`src/`; transition timestamps are explicitly not modelled by the spec). -/
structure AggregateCondition where
  ready : Bool
  reason : String
  message : String
deriving DecidableEq, Repr

/-- Modelled from the spec: the Application status sub-object — observed
generation, the aggregate readiness condition and the component list
(`appv1beta1.ApplicationStatus` lives outside `src/`). -/
structure ApplicationStatus where
  observedGeneration : Int
  componentList : ComponentList
  condition : Option AggregateCondition
deriving DecidableEq, Repr

/-- Modelled from the spec: the Application spec — the component (group, kind)
selectors, the label selector, and the ownership opt-in flag
(`appv1beta1.ApplicationSpec` lives outside `src/`). -/
structure ApplicationSpec where
  componentGroupKinds : List GroupKind
  selector : LabelSelector
  addOwnerRef : Bool
deriving DecidableEq, Repr

/-- Modelled from the spec: the Application object — identity
(namespace + name + uid), generation counter, deletion tombstone, spec and
status (`appv1beta1.Application` lives outside `src/`). -/
structure Application where
  nspace : String
  name : String
  uid : String
  generation : Int
  deletionTimestamp : Option String
  spec : ApplicationSpec
  status : ApplicationStatus
deriving DecidableEq, Repr

/-- The `StatusReady` classification constant the aggregator compares against
(declared by the repository outside `src/`; the spec fixes a Ready
classification among a small set of classification strings). -/
def StatusReady : String := "Ready"

/-- A structured log event emitted by the controller; the embedding returns
emitted events explicitly where a claim talks about logging. -/
inductive LogEvent where
  | noMappingForGK (gk : GroupKind)
  | errorSettingOwnerRef (e : Err) (gvk : GroupVersionKind) (nspace name : String)
deriving DecidableEq, Repr

/-- The result of `r.Get` on the Application, with `errors.IsNotFound`
distinguished the way line 60 distinguishes it. -/
inductive GetResult where
  | ok (app : Application)
  | notFound
  | otherError (e : Err)
deriving DecidableEq, Repr

/-- The capability record of the external collaborators: the REST mapper
(`none` models a resolution error for an unknown kind), the client's
namespaced label-selected list, the pluggable per-resource `status` heuristic,
and the client's update of a component resource and of the Application
(`some e` models a failed write). -/
structure CatalogEnv where
  restMapping : GroupKind → Option GroupVersionKind
  list : GroupVersionKind → String → List (String × String) → Except Err (List ComponentResource)
  status : ComponentResource → Except Err String
  updateResource : ComponentResource → Option Err
  updateApp : Application → Option Err

/-- `ctrl.Result`: the controller only ever sets `Requeue`. -/
structure CtrlResult where
  requeue : Bool
deriving DecidableEq, Repr

/-- The observable outcome of one `Reconcile` call: the returned
`(ctrl.Result, error)` pair, the Application update issued (if the pass
reached line 107, together with the content written), and the component
resources on which the ownership step issued an update. -/
structure ReconcileOutcome where
  result : CtrlResult
  error : Option Err
  appWrite : Option Application
  resourceWrites : List ComponentResource
deriving DecidableEq, Repr

/-- The result of `fetchComponentListResources`: the accumulated resources,
the emitted log events, and the returned error. -/
structure FetchResult where
  resources : List ComponentResource
  logs : List LogEvent
  error : Option Err
deriving DecidableEq, Repr

/-- The inner loop of lines 132-134, `for _, u := range list.Items
{ resources = append(resources, &u) }`, under the pre-1.22 Go loop-variable
rule: the range clause declares a single variable `u` reused by every
iteration, so each appended pointer `&u` aliases that one variable, which
after the loop holds the collection's last item.  Every later dereference of
those pointers therefore yields the last item: the values this collection
contributes to `resources` are `items.length` copies of its last item. -/
def appendAliasedItems (resources : List ComponentResource)
    (items : List ComponentResource) : List ComponentResource :=
  match items.getLast? with
  | none => resources
  | some lastItem => resources ++ items.map (fun _ => lastItem)

/-- The loop of lines 116-135: for each GroupKind, resolve it via the REST
mapper (on failure log `NoMappingForGK` and continue), list the matching
resources in the namespace (on failure return the resources accumulated so
far together with the error), and append the listed items (through the
aliasing of `appendAliasedItems`). -/
def fetchLoop (env : CatalogEnv) (selector : LabelSelector) (nspace : String) :
    List GroupKind → List ComponentResource → List LogEvent → FetchResult
  | [], resources, logs => ⟨resources, logs, none⟩
  | gk :: rest, resources, logs =>
    match env.restMapping gk with
    | none => fetchLoop env selector nspace rest resources (logs ++ [LogEvent.noMappingForGK gk])
    | some gvk =>
      match env.list gvk nspace selector.matchLabels with
      | .error e => ⟨resources, logs, some e⟩
      | .ok items => fetchLoop env selector nspace rest (appendAliasedItems resources items) logs

/-- `fetchComponentListResources` (lines 113-137). -/
def fetchComponentListResources (env : CatalogEnv) (groupKinds : List GroupKind)
    (selector : LabelSelector) (nspace : String) : FetchResult :=
  fetchLoop env selector nspace groupKinds [] []

/-- The owner-reference match test of lines 145-147: equality on
(kind, apiVersion, name). -/
def ownerRefMatches (ownerRef r : OwnerReference) : Prop :=
  ownerRef.kind = r.kind ∧ ownerRef.apiVersion = r.apiVersion ∧ ownerRef.name = r.name

instance instDecidableOwnerRefMatches (ownerRef r : OwnerReference) :
    Decidable (ownerRefMatches ownerRef r) := by
  unfold ownerRefMatches; infer_instance

/-- The owner-reference rewrite of lines 142-157 for one resource: scan the
existing references, remember whether a (kind, apiVersion, name) match was
found, overwrite in place every matching entry whose UID differs, and append
the new reference when no match was found. -/
def updateOwnerReferences (ownerRef : OwnerReference)
    (ownerRefs : List OwnerReference) : List OwnerReference :=
  let rewritten := ownerRefs.map fun r =>
    if ownerRefMatches ownerRef r then
      (if ownerRef.uid ≠ r.uid then ownerRef else r)
    else r
  if ∃ r ∈ ownerRefs, ownerRefMatches ownerRef r then rewritten
  else rewritten ++ [ownerRef]

/-- The result of `setOwnerRefForResources`: the resources as written back,
the emitted log events, and the returned error. -/
structure OwnerRefResult where
  resources : List ComponentResource
  logs : List LogEvent
  error : Option Err
deriving Repr

/-- The loop of lines 141-165: rewrite each resource's owner references, issue
the client update, and on a failed update log `ErrorSettingOwnerRef` and
continue with the next resource. -/
def setOwnerRefLoop (env : CatalogEnv) (ownerRef : OwnerReference) :
    List ComponentResource → List ComponentResource × List LogEvent
  | [] => ([], [])
  | resource :: rest =>
    let updated := { resource with
      ownerReferences := updateOwnerReferences ownerRef resource.ownerReferences }
    let logs :=
      match env.updateResource updated with
      | some e => [LogEvent.errorSettingOwnerRef e updated.gvk updated.nspace updated.name]
      | none => []
    let tail := setOwnerRefLoop env ownerRef rest
    (updated :: tail.1, logs ++ tail.2)

/-- `setOwnerRefForResources` (lines 139-167): runs the loop and returns
`nil` (line 166) whatever the per-resource update results were. -/
def setOwnerRefForResources (env : CatalogEnv) (ownerRef : OwnerReference)
    (resources : List ComponentResource) : OwnerRefResult :=
  let t := setOwnerRefLoop env ownerRef resources
  ⟨t.1, t.2, none⟩

/-- The `ObjectStatus` literal of lines 173-178 (the `Status` field still at
its zero value). -/
def mkObjectStatus (resource : ComponentResource) : ObjectStatus :=
  { group := resource.gvk.group
  , kind := resource.gvk.kind
  , name := resource.name
  , link := resource.selfLink
  , status := "" }

/-- `objectStatuses` (lines 169-190): evaluate each resource with the external
`status` heuristic; on error log and skip the resource, otherwise keep its
`ObjectStatus` with the computed classification. -/
def objectStatuses (env : CatalogEnv) : List ComponentResource → List ObjectStatus
  | [] => []
  | resource :: rest =>
    match env.status resource with
    | .error _ => objectStatuses env rest
    | .ok s => { mkObjectStatus resource with status := s } :: objectStatuses env rest

/-- `aggregateReady` (lines 192-199): false as soon as one entry's
classification differs from `StatusReady`, true otherwise. -/
def aggregateReady : List ObjectStatus → Bool
  | [] => true
  | os :: rest => if os.status ≠ StatusReady then false else aggregateReady rest

/-- Modelled from the spec: `setReadyCondition` (declared by the repository
outside `src/`) stores the aggregate condition as Ready with the given reason
and message. -/
def setReadyCondition (s : ApplicationStatus) (reason message : String) :
    ApplicationStatus :=
  { s with condition := some ⟨true, reason, message⟩ }

/-- Modelled from the spec: `setNotReadyCondition` (declared by the repository
outside `src/`) stores the aggregate condition as NotReady with the given
reason and message. -/
def setNotReadyCondition (s : ApplicationStatus) (reason message : String) :
    ApplicationStatus :=
  { s with condition := some ⟨false, reason, message⟩ }

/-- Lines 77-78: `metav1.NewControllerRef(&app, GroupVersion.WithKind("Application"))`
builds an owner reference carrying the Application's api version, kind, name
and uid with `Controller` and `BlockOwnerDeletion` true; line 78 immediately
resets `Controller` to false (a non-controlling owner). -/
def applicationOwnerRef (app : Application) : OwnerReference :=
  { apiVersion := "app.k8s.io/v1beta1"
  , kind := "Application"
  , name := app.name
  , uid := app.uid
  , controller := false
  , blockOwnerDeletion := true }

/-- Lines 87-98: copy the stored status, overwrite observed generation and
component list, and set the Ready / NotReady condition from the aggregate
verdict with the fixed reason and message strings. -/
def composeNewStatus (app : Application) (oss : List ObjectStatus) :
    ApplicationStatus :=
  let base := { app.status with
    observedGeneration := app.generation
    componentList := ComponentList.mk oss }
  if aggregateReady oss then
    setReadyCondition base "ComponentsReady" "all components ready"
  else
    setNotReadyCondition base "ComponentsNotReady" "some components not ready"

/-- The dynamic type and value of an argument of the
`equality.Semantic.DeepEqual` call at line 102: the call receives
`newApplicationStatus`, a `*ApplicationStatus` (the result of `DeepCopy()` at
line 87), and `app.Status`, an `ApplicationStatus` value. -/
inductive DeepEqualArg where
  | ptrApplicationStatus (s : ApplicationStatus)
  | valApplicationStatus (s : ApplicationStatus)

/-- `equality.Semantic.DeepEqual` of `k8s.io/apimachinery/pkg/api/equality`:
`conversion.Equalities.DeepEqual` first compares the dynamic types of its two
arguments (`if v1.Type() != v2.Type() { return false }`) and only then
compares structurally; a `*ApplicationStatus` and an `ApplicationStatus`
therefore never compare equal. -/
def semanticDeepEqual : DeepEqualArg → DeepEqualArg → Bool
  | .ptrApplicationStatus a, .ptrApplicationStatus b => decide (a = b)
  | .valApplicationStatus a, .valApplicationStatus b => decide (a = b)
  | _, _ => false

/-- Lines 84-110 of `Reconcile`: evaluate the resources, compose the candidate
status, compare it with the stored status via `semanticDeepEqual` (pointer
against value, as at line 102), and either return without writing or write the
Application with the new status, requeueing on a failed write.
`resourceWrites` carries the component updates already issued by the
ownership step. -/
def reconcileStatusPhase (env : CatalogEnv) (app : Application)
    (resources : List ComponentResource)
    (resourceWrites : List ComponentResource) : ReconcileOutcome :=
  let oss := objectStatuses env resources
  let newApplicationStatus := composeNewStatus app oss
  if semanticDeepEqual (.ptrApplicationStatus newApplicationStatus)
      (.valApplicationStatus app.status) then
    ⟨⟨false⟩, none, none, resourceWrites⟩
  else
    let written := { app with status := newApplicationStatus }
    match env.updateApp written with
    | some e => ⟨⟨true⟩, some e, some written, resourceWrites⟩
    | none => ⟨⟨false⟩, none, some written, resourceWrites⟩

/-- `Reconcile` (lines 52-111): fetch the Application (NotFound is terminal
success, any other get error requeues), short-circuit on the deletion
tombstone, discover the component resources (a discovery error requeues),
optionally claim ownership (an error from the claim step would requeue), then
evaluate, aggregate and conditionally write back. -/
def reconcile (env : CatalogEnv) (getApp : GetResult) : ReconcileOutcome :=
  match getApp with
  | .notFound => ⟨⟨false⟩, none, none, []⟩
  | .otherError e => ⟨⟨true⟩, some e, none, []⟩
  | .ok app =>
    if app.deletionTimestamp ≠ none then ⟨⟨false⟩, none, none, []⟩
    else
      let fetched := fetchComponentListResources env app.spec.componentGroupKinds
        app.spec.selector app.nspace
      match fetched.error with
      | some e => ⟨⟨true⟩, some e, none, []⟩
      | none =>
        if app.spec.addOwnerRef then
          let claimed := setOwnerRefForResources env (applicationOwnerRef app)
            fetched.resources
          match claimed.error with
          | some e => ⟨⟨true⟩, some e, none, claimed.resources⟩
          | none => reconcileStatusPhase env app claimed.resources claimed.resources
        else reconcileStatusPhase env app fetched.resources []

/-- The discoverer as the specification words it, for comparison with
`fetchComponentListResources`: identical control flow, but each listed
collection contributes the listed items themselves, in catalog return
order. -/
def fetchLoopSpec (env : CatalogEnv) (selector : LabelSelector) (nspace : String) :
    List GroupKind → List ComponentResource → List ComponentResource × Option Err
  | [], resources => (resources, none)
  | gk :: rest, resources =>
    match env.restMapping gk with
    | none => fetchLoopSpec env selector nspace rest resources
    | some gvk =>
      match env.list gvk nspace selector.matchLabels with
      | .error e => (resources, some e)
      | .ok items => fetchLoopSpec env selector nspace rest (resources ++ items)

/-- Entry point of the spec-worded discoverer. -/
def fetchComponentListResourcesSpec (env : CatalogEnv) (groupKinds : List GroupKind)
    (selector : LabelSelector) (nspace : String) : List ComponentResource × Option Err :=
  fetchLoopSpec env selector nspace groupKinds []

/-- The count of owner references matching an owner identity on
(kind, apiVersion, name). -/
def countMatching (ownerRef : OwnerReference) (refs : List OwnerReference) : Nat :=
  refs.countP fun r => decide (ownerRefMatches ownerRef r)

/-- A concrete GroupVersionKind for test inputs. -/
def depGVK : GroupVersionKind := ⟨"apps", "v1", "Deployment"⟩

/-- A concrete GroupKind selector for test inputs. -/
def gkDeployment : GroupKind := ⟨"apps", "Deployment"⟩

/-- A concrete component resource named a. -/
def resA : ComponentResource := ⟨depGVK, "ns1", "a", "/a", []⟩

/-- A concrete component resource named b. -/
def resB : ComponentResource := ⟨depGVK, "ns1", "b", "/b", []⟩

/-- A concrete component resource named c. -/
def resC : ComponentResource := ⟨depGVK, "ns1", "c", "/c", []⟩

/-- A concrete label selector. -/
def sel1 : LabelSelector := ⟨[("app", "app1")]⟩

/-- A trivial environment: no kind resolves, listings are empty, every
resource evaluates Ready, all writes succeed. -/
def trivEnv : CatalogEnv :=
  { restMapping := fun _ => none
  , list := fun _ _ _ => .ok []
  , status := fun _ => .ok StatusReady
  , updateResource := fun _ => none
  , updateApp := fun _ => none }

/-- An environment where the Deployment kind resolves and its listing returns
the two distinct resources a and b. -/
def envTwoItems : CatalogEnv :=
  { restMapping := fun gk => if gk = gkDeployment then some depGVK else none
  , list := fun _ _ _ => .ok [resA, resB]
  , status := fun _ => .ok StatusReady
  , updateResource := fun _ => none
  , updateApp := fun _ => none }

/-- An environment where every kind resolves but every listing fails. -/
def envListFails : CatalogEnv :=
  { restMapping := fun _ => some depGVK
  , list := fun _ _ _ => .error ⟨"io"⟩
  , status := fun _ => .ok StatusReady
  , updateResource := fun _ => none
  , updateApp := fun _ => none }

/-- An environment where status evaluation fails exactly on the resource
named b and succeeds on the rest. -/
def envPartial : CatalogEnv :=
  { restMapping := fun _ => some depGVK
  , list := fun _ _ _ => .ok [resA, resB, resC]
  , status := fun r => if r.name = "b" then .error ⟨"unreadable"⟩ else .ok StatusReady
  , updateResource := fun _ => none
  , updateApp := fun _ => none }

/-- An environment where the Application status write fails. -/
def envWriteFails : CatalogEnv :=
  { trivEnv with updateApp := fun _ => some ⟨"conflict"⟩ }

/-- A concrete Application marked for deletion. -/
def appDeleted : Application :=
  { nspace := "ns1", name := "app1", uid := "u1", generation := 1
  , deletionTimestamp := some "2020-01-01"
  , spec := ⟨[], sel1, false⟩, status := ⟨0, ⟨[]⟩, none⟩ }

/-- A concrete live Application selecting the Deployment kind. -/
def appSimple : Application :=
  { nspace := "ns1", name := "app1", uid := "u1", generation := 1
  , deletionTimestamp := none
  , spec := ⟨[gkDeployment], sel1, false⟩, status := ⟨0, ⟨[]⟩, none⟩ }

/-- A concrete Application whose stored status already equals the status a
reconcile pass recomputes for it (no components, observed generation up to
date, Ready condition with the fixed reason and message). -/
def appStable : Application :=
  { nspace := "ns1", name := "app1", uid := "u1", generation := 7
  , deletionTimestamp := none
  , spec := ⟨[], sel1, false⟩
  , status := ⟨7, ⟨[]⟩, some ⟨true, "ComponentsReady", "all components ready"⟩⟩ }

/-- A concrete live Application at generation 1. -/
def appGen1 : Application :=
  { nspace := "ns1", name := "app1", uid := "u1", generation := 1
  , deletionTimestamp := none
  , spec := ⟨[], sel1, false⟩, status := ⟨0, ⟨[]⟩, none⟩ }

/-- The same Application at generation 2 (identical spec and status). -/
def appGen2 : Application := { appGen1 with generation := 2 }

/-- The owner reference the reconciler builds for the app1 Application. -/
def ownerRefApp1 : OwnerReference := applicationOwnerRef appGen1

/-- An owner reference with the same (kind, apiVersion, name) identity but a
stale UID (the owner was recreated under the same name). -/
def staleOwnerRef : OwnerReference := { ownerRefApp1 with uid := "old-uid" }

/-- An owner identity matches itself. -/
theorem ownerRefMatches_self (o : OwnerReference) : ownerRefMatches o o :=
  ⟨rfl, rfl, rfl⟩

/-- The overwrite step applied to the owner reference itself is the identity. -/
theorem overwriteStep_self (o : OwnerReference) :
    (if ownerRefMatches o o then (if o.uid ≠ o.uid then o else o) else o) = o := by
  simp

/-- The overwrite step of `updateOwnerReferences` is idempotent on every
single entry. -/
theorem overwriteStep_idem (o r : OwnerReference) :
    (fun r => if ownerRefMatches o r then (if o.uid ≠ r.uid then o else r) else r)
      ((fun r => if ownerRefMatches o r then (if o.uid ≠ r.uid then o else r) else r) r)
    = (fun r => if ownerRefMatches o r then (if o.uid ≠ r.uid then o else r) else r) r := by
  by_cases hm : ownerRefMatches o r
  · by_cases hu : o.uid ≠ r.uid
    · simp [hm, hu]
    · simp [hm, hu]
  · simp [hm]

/-- The overwrite step preserves the match status of every entry. -/
theorem overwriteStep_matches (o r : OwnerReference) :
    ownerRefMatches o
      ((fun r => if ownerRefMatches o r then (if o.uid ≠ r.uid then o else r) else r) r)
    ↔ ownerRefMatches o r := by
  by_cases hm : ownerRefMatches o r
  · by_cases hu : o.uid ≠ r.uid
    · simp [hm, hu, ownerRefMatches_self]
    · simp [hm, hu]
  · simp [hm]

/-- When some existing entry matches the owner identity, the rewrite is the
in-place overwrite map, with nothing appended. -/
theorem updateOwnerReferences_found (o : OwnerReference) (refs : List OwnerReference)
    (h : ∃ r ∈ refs, ownerRefMatches o r) :
    updateOwnerReferences o refs =
      refs.map fun r => if ownerRefMatches o r then (if o.uid ≠ r.uid then o else r) else r := by
  unfold updateOwnerReferences
  rw [if_pos h]

/-- When no existing entry matches the owner identity, the rewrite appends the
new entry and leaves every existing entry unchanged. -/
theorem updateOwnerReferences_not_found (o : OwnerReference) (refs : List OwnerReference)
    (h : ∀ r ∈ refs, ¬ ownerRefMatches o r) :
    updateOwnerReferences o refs = refs ++ [o] := by
  unfold updateOwnerReferences
  rw [if_neg (by simpa using h)]
  have hmap : (refs.map fun r =>
      if ownerRefMatches o r then (if o.uid ≠ r.uid then o else r) else r) = refs := by
    induction refs with
    | nil => rfl
    | cons r rest ih =>
      have hr := h r (List.mem_cons_self r rest)
      simp only [List.map_cons, if_neg hr]
      rw [ih fun x hx => h x (List.mem_cons_of_mem r hx)]
  rw [hmap]


/-- The overwrite map is the identity on a list with no matching entry. -/
theorem overwriteMap_of_no_match (o : OwnerReference) (refs : List OwnerReference)
    (h : ∀ r ∈ refs, ¬ ownerRefMatches o r) :
    (refs.map fun r =>
      if ownerRefMatches o r then (if o.uid ≠ r.uid then o else r) else r) = refs := by
  induction refs with
  | nil => rfl
  | cons r rest ih =>
    have hr := h r (List.mem_cons_self r rest)
    simp only [List.map_cons, if_neg hr]
    rw [ih fun x hx => h x (List.mem_cons_of_mem r hx)]

/-- Rewriting the owner references twice with the same owner identity gives
the same list as rewriting them once. -/
theorem updateOwnerReferences_idem (o : OwnerReference) (refs : List OwnerReference) :
    updateOwnerReferences o (updateOwnerReferences o refs) = updateOwnerReferences o refs := by
  by_cases h : ∃ r ∈ refs, ownerRefMatches o r
  · rw [updateOwnerReferences_found o refs h]
    obtain ⟨r, hr, hm⟩ := h
    have hexists : ∃ x ∈ refs.map fun r =>
        if ownerRefMatches o r then (if o.uid ≠ r.uid then o else r) else r,
        ownerRefMatches o x := by
      refine ⟨_, List.mem_map_of_mem _ hr, ?_⟩
      exact (overwriteStep_matches o r).mpr hm
    rw [updateOwnerReferences_found o _ hexists]
    rw [List.map_map]
    exact List.map_congr_left fun x _ => overwriteStep_idem o x
  · have hno : ∀ r ∈ refs, ¬ ownerRefMatches o r := by simpa using h
    rw [updateOwnerReferences_not_found o refs hno]
    have hexists : ∃ x ∈ refs ++ [o], ownerRefMatches o x :=
      ⟨o, by simp, ownerRefMatches_self o⟩
    rw [updateOwnerReferences_found o _ hexists]
    rw [List.map_append, overwriteMap_of_no_match o refs hno]
    simp [overwriteStep_self]

/-- The resources the ownership loop writes back are the input resources with
their owner references rewritten; the per-resource update results only affect
the log trace. -/
theorem setOwnerRefLoop_resources (env : CatalogEnv) (o : OwnerReference)
    (resources : List ComponentResource) :
    (setOwnerRefLoop env o resources).1 =
      resources.map fun r =>
        { r with ownerReferences := updateOwnerReferences o r.ownerReferences } := by
  induction resources with
  | nil => rfl
  | cons r rest ih => simp only [setOwnerRefLoop, List.map_cons, ih]

/-- The resources component of `setOwnerRefForResources`. -/
theorem setOwnerRefForResources_resources (env : CatalogEnv) (o : OwnerReference)
    (resources : List ComponentResource) :
    (setOwnerRefForResources env o resources).resources =
      resources.map fun r =>
        { r with ownerReferences := updateOwnerReferences o r.ownerReferences } := by
  unfold setOwnerRefForResources
  exact setOwnerRefLoop_resources env o resources

/-- Applying the overwrite step to a matching entry yields the owner
reference itself or the entry, so the match count of a rewritten list equals
that of the original list. -/
theorem countMatching_overwriteMap (o : OwnerReference) (refs : List OwnerReference) :
    countMatching o (refs.map fun r =>
      if ownerRefMatches o r then (if o.uid ≠ r.uid then o else r) else r)
    = countMatching o refs := by
  unfold countMatching
  rw [List.countP_map]
  refine List.countP_congr fun r _ => ?_
  simp only [Function.comp_apply, decide_eq_true_eq]
  exact ⟨fun h => (overwriteStep_matches o r).mp h, fun h => (overwriteStep_matches o r).mpr h⟩

/-- One rewrite produces exactly one matching entry when there was none, and
keeps the match count unchanged otherwise. -/
theorem countMatching_updateOwnerReferences (o : OwnerReference) (refs : List OwnerReference) :
    countMatching o (updateOwnerReferences o refs) =
      if countMatching o refs = 0 then 1 else countMatching o refs := by
  by_cases h : ∃ r ∈ refs, ownerRefMatches o r
  · rw [updateOwnerReferences_found o refs h, countMatching_overwriteMap]
    have hpos : 0 < countMatching o refs := by
      unfold countMatching
      rw [List.countP_pos_iff]
      obtain ⟨r, hr, hm⟩ := h
      exact ⟨r, hr, by simpa using hm⟩
    rw [if_neg (Nat.pos_iff_ne_zero.mp hpos)]
  · have hno : ∀ r ∈ refs, ¬ ownerRefMatches o r := by simpa using h
    rw [updateOwnerReferences_not_found o refs hno]
    have hzero : countMatching o refs = 0 := by
      unfold countMatching
      rw [List.countP_eq_zero]
      intro r hr
      simpa using hno r hr
    unfold countMatching at hzero ⊢
    rw [List.countP_append, if_pos hzero, hzero]
    simp [ownerRefMatches_self]

/-- A pointer argument and a value argument never compare equal under
`semanticDeepEqual` (the dynamic-type check of `DeepEqual`). -/
theorem semanticDeepEqual_ptr_val (a b : ApplicationStatus) :
    semanticDeepEqual (.ptrApplicationStatus a) (.valApplicationStatus b) = false := rfl

/-- The status phase always issues the Application write: the structural
comparison at line 102 receives a pointer and a value and is therefore
always false. -/
theorem reconcileStatusPhase_eq (env : CatalogEnv) (app : Application)
    (resources ws : List ComponentResource) :
    reconcileStatusPhase env app resources ws =
      match env.updateApp
          { app with status := composeNewStatus app (objectStatuses env resources) } with
      | some e => ⟨⟨true⟩, some e,
          some { app with status := composeNewStatus app (objectStatuses env resources) }, ws⟩
      | none => ⟨⟨false⟩, none,
          some { app with status := composeNewStatus app (objectStatuses env resources) }, ws⟩ := by
  unfold reconcileStatusPhase
  simp only [semanticDeepEqual_ptr_val, Bool.false_eq_true, if_false]

/-- The Application content written by the status phase. -/
theorem reconcileStatusPhase_appWrite (env : CatalogEnv) (app : Application)
    (resources ws : List ComponentResource) :
    (reconcileStatusPhase env app resources ws).appWrite =
      some { app with status := composeNewStatus app (objectStatuses env resources) } := by
  rw [reconcileStatusPhase_eq]
  cases env.updateApp
      { app with status := composeNewStatus app (objectStatuses env resources) } <;> rfl

/-- The error component of `setOwnerRefForResources` is literally `nil`. -/
theorem setOwnerRefForResources_error (env : CatalogEnv) (o : OwnerReference)
    (resources : List ComponentResource) :
    (setOwnerRefForResources env o resources).error = none := rfl

/-- Unfolding of `reconcile` on a live Application whose discovery succeeds:
both the ownership and the non-ownership branches end in the status phase. -/
theorem reconcile_ok_not_deleted (env : CatalogEnv) (app : Application)
    (hdel : app.deletionTimestamp = none)
    (hfetch : (fetchComponentListResources env app.spec.componentGroupKinds
      app.spec.selector app.nspace).error = none) :
    reconcile env (.ok app) =
      if app.spec.addOwnerRef then
        reconcileStatusPhase env app
          (setOwnerRefForResources env (applicationOwnerRef app)
            (fetchComponentListResources env app.spec.componentGroupKinds
              app.spec.selector app.nspace).resources).resources
          (setOwnerRefForResources env (applicationOwnerRef app)
            (fetchComponentListResources env app.spec.componentGroupKinds
              app.spec.selector app.nspace).resources).resources
      else
        reconcileStatusPhase env app
          (fetchComponentListResources env app.spec.componentGroupKinds
            app.spec.selector app.nspace).resources [] := by
  unfold reconcile
  simp only [hdel, ne_eq, not_true_eq_false, if_false, hfetch, setOwnerRefForResources_error]

/-- The condition `composeNewStatus` stores is Ready with reason
ComponentsReady or NotReady with reason ComponentsNotReady, by the aggregate
verdict. -/
theorem composeNewStatus_condition (app : Application) (oss : List ObjectStatus) :
    (composeNewStatus app oss).condition =
      if aggregateReady oss then
        some ⟨true, "ComponentsReady", "all components ready"⟩
      else some ⟨false, "ComponentsNotReady", "some components not ready"⟩ := by
  unfold composeNewStatus setReadyCondition setNotReadyCondition
  split <;> rfl

/-- The component list `composeNewStatus` stores is exactly the evaluated
object statuses. -/
theorem composeNewStatus_componentList (app : Application) (oss : List ObjectStatus) :
    (composeNewStatus app oss).componentList = ComponentList.mk oss := by
  unfold composeNewStatus setReadyCondition setNotReadyCondition
  split <;> rfl

/-- The discovery loop over only unresolvable kinds logs one skip event per
kind and returns its accumulators with no error. -/
theorem fetchLoop_all_unknown (env : CatalogEnv) (selector : LabelSelector)
    (nspace : String) (gks : List GroupKind)
    (resources : List ComponentResource) (logs : List LogEvent)
    (h : ∀ gk ∈ gks, env.restMapping gk = none) :
    fetchLoop env selector nspace gks resources logs =
      ⟨resources, logs ++ gks.map LogEvent.noMappingForGK, none⟩ := by
  induction gks generalizing logs with
  | nil => simp [fetchLoop]
  | cons gk rest ih =>
    have h1 := h gk (List.mem_cons_self gk rest)
    simp only [fetchLoop, h1]
    rw [ih (logs ++ [LogEvent.noMappingForGK gk]) fun x hx => h x (List.mem_cons_of_mem gk hx)]
    simp

/-- The evaluated statuses are exactly those of the resources whose evaluation
succeeded, in their original order. -/
theorem objectStatuses_eq_filter_map (env : CatalogEnv)
    (resources : List ComponentResource) :
    objectStatuses env resources =
      (resources.filter fun r => (env.status r).toOption.isSome).map
        fun r => { mkObjectStatus r with status := (env.status r).toOption.getD "" } := by
  induction resources with
  | nil => rfl
  | cons r rest ih =>
    cases h : env.status r with
    | error e =>
      rw [objectStatuses, h, ih]
      simp [List.filter_cons, h, Except.toOption]
    | ok s =>
      rw [objectStatuses, h, ih]
      simp [List.filter_cons, h, Except.toOption]

/-- Discovery depends only on the REST mapper and the list capability. -/
theorem fetchLoop_congr (env₁ env₂ : CatalogEnv) (selector : LabelSelector)
    (nspace : String) (h1 : env₁.restMapping = env₂.restMapping)
    (h2 : env₁.list = env₂.list) (gks : List GroupKind)
    (resources : List ComponentResource) (logs : List LogEvent) :
    fetchLoop env₁ selector nspace gks resources logs =
      fetchLoop env₂ selector nspace gks resources logs := by
  induction gks generalizing resources logs with
  | nil => rfl
  | cons gk rest ih =>
    cases hm : env₁.restMapping gk with
    | none =>
      have hm2 : env₂.restMapping gk = none := by rw [← congrFun h1 gk]; exact hm
      simp only [fetchLoop, hm, hm2]
      exact ih resources (logs ++ [LogEvent.noMappingForGK gk])
    | some gvk =>
      have hm2 : env₂.restMapping gk = some gvk := by rw [← congrFun h1 gk]; exact hm
      have hl := congrFun (congrFun (congrFun h2 gvk) nspace) selector.matchLabels
      cases hlist : env₁.list gvk nspace selector.matchLabels with
      | error e =>
        have hlist2 : env₂.list gvk nspace selector.matchLabels = .error e := by
          rw [← hl]; exact hlist
        simp only [fetchLoop, hm, hm2, hlist, hlist2]
      | ok items =>
        have hlist2 : env₂.list gvk nspace selector.matchLabels = .ok items := by
          rw [← hl]; exact hlist
        simp only [fetchLoop, hm, hm2, hlist, hlist2]
        exact ih (appendAliasedItems resources items) logs

/-- Status evaluation depends only on the status capability. -/
theorem objectStatuses_congr (env₁ env₂ : CatalogEnv)
    (h : env₁.status = env₂.status) (resources : List ComponentResource) :
    objectStatuses env₁ resources = objectStatuses env₂ resources := by
  induction resources with
  | nil => rfl
  | cons r rest ih =>
    rw [objectStatuses, objectStatuses, h, ih]

/-- C1: discovery was meant to return the union of the matched component
resources in traversal-then-catalog order with no entry of a listed
collection omitted or replaced; evaluated at a collection with the two
distinct resources a and b, the code (whose inner loop appends the address
of the per-collection range variable) returns the last item twice, while
the spec-worded discoverer returns both items. -/
theorem fetch_replaces_collection_items_by_last :
    fetchComponentListResources envTwoItems [gkDeployment] sel1 "ns1" =
      ⟨[resB, resB], [], none⟩
    ∧ fetchComponentListResourcesSpec envTwoItems [gkDeployment] sel1 "ns1" =
      ([resA, resB], none)
    ∧ resA ≠ resB := by decide

/-- C2: the aggregate verdict is true exactly when every entry's
classification is the Ready classification, and the empty status list is
vacuously ready. -/
theorem aggregateReady_iff_all_ready :
    (∀ oss : List ObjectStatus,
      (aggregateReady oss = true ↔ ∀ os ∈ oss, os.status = StatusReady))
    ∧ aggregateReady [] = true := by
  constructor
  · intro oss
    induction oss with
    | nil => simp [aggregateReady]
    | cons os rest ih =>
      by_cases h : os.status = StatusReady
      · simp [aggregateReady, h, ih]
      · simp [aggregateReady, h]
  · rfl

/-- C2 witness: the aggregate verdict evaluated through the theorem on a
concrete singleton list. -/
theorem aggregateReady_iff_all_ready_checked :
    aggregateReady [⟨"apps", "Deployment", "a", "/a", StatusReady⟩] = true :=
  (aggregateReady_iff_all_ready.1 _).2 (by decide)

/-- C3: the ownership rewrite overwrites in place a matching entry whose UID
differs (no append when a (kind, apiVersion, name) match exists), appends a
new entry when no match exists, and is idempotent: a second application with
the same owner identity changes nothing, both on one owner-reference list and
across a whole resource list, and produces no duplicate matching entries
(the match count after one rewrite is one when it was zero and unchanged
otherwise). -/
theorem ownership_overwrite_append_idempotent :
    (∀ (ownerRef : OwnerReference) (refs : List OwnerReference),
      (∃ r ∈ refs, ownerRefMatches ownerRef r) →
      updateOwnerReferences ownerRef refs =
        refs.map fun r =>
          if ownerRefMatches ownerRef r then
            (if ownerRef.uid ≠ r.uid then ownerRef else r)
          else r)
    ∧ (∀ (ownerRef : OwnerReference) (refs : List OwnerReference),
      (∃ r ∈ refs, ownerRefMatches ownerRef r) →
      (updateOwnerReferences ownerRef refs).length = refs.length)
    ∧ (∀ (ownerRef : OwnerReference) (refs : List OwnerReference),
      (∀ r ∈ refs, ¬ ownerRefMatches ownerRef r) →
      updateOwnerReferences ownerRef refs = refs ++ [ownerRef])
    ∧ (∀ (ownerRef : OwnerReference) (refs : List OwnerReference),
      updateOwnerReferences ownerRef (updateOwnerReferences ownerRef refs) =
        updateOwnerReferences ownerRef refs)
    ∧ (∀ (env : CatalogEnv) (ownerRef : OwnerReference)
        (resources : List ComponentResource),
      (setOwnerRefForResources env ownerRef
        (setOwnerRefForResources env ownerRef resources).resources).resources =
        (setOwnerRefForResources env ownerRef resources).resources)
    ∧ ∀ (ownerRef : OwnerReference) (refs : List OwnerReference),
        countMatching ownerRef (updateOwnerReferences ownerRef refs) =
          if countMatching ownerRef refs = 0 then 1 else countMatching ownerRef refs := by
  refine ⟨updateOwnerReferences_found, fun o refs h => ?_,
    updateOwnerReferences_not_found, updateOwnerReferences_idem, fun env o rs => ?_,
    countMatching_updateOwnerReferences⟩
  · rw [updateOwnerReferences_found o refs h, List.length_map]
  · rw [setOwnerRefForResources_resources, setOwnerRefForResources_resources,
      List.map_map]
    refine List.map_congr_left fun r _ => ?_
    simp [Function.comp, updateOwnerReferences_idem]

/-- C3 witness: the rewrite applied through the theorem at a stale owner
reference (same identity, old UID) and at an empty owner list. -/
theorem ownership_overwrite_append_idempotent_checked :
    updateOwnerReferences ownerRefApp1 [staleOwnerRef] = [ownerRefApp1]
    ∧ updateOwnerReferences ownerRefApp1 [] = [ownerRefApp1]
    ∧ updateOwnerReferences ownerRefApp1 (updateOwnerReferences ownerRefApp1 [staleOwnerRef])
        = updateOwnerReferences ownerRefApp1 [staleOwnerRef]
    ∧ countMatching ownerRefApp1 (updateOwnerReferences ownerRefApp1 [staleOwnerRef]) = 1 := by
  refine ⟨?_, ?_, ?_, ?_⟩
  · rw [ownership_overwrite_append_idempotent.1 ownerRefApp1 [staleOwnerRef] (by decide)]
    decide
  · rw [ownership_overwrite_append_idempotent.2.2.1 ownerRefApp1 [] (by decide)]
    rfl
  · exact ownership_overwrite_append_idempotent.2.2.2.1 ownerRefApp1 [staleOwnerRef]
  · rw [ownership_overwrite_append_idempotent.2.2.2.2.2 ownerRefApp1 [staleOwnerRef]]
    decide

/-- C4: a NotFound fetch of the Application is terminal success, any other
fetch error requeues with that error, and an Application marked for deletion
is terminal success with no discovery, no ownership claim, no evaluation and
no write (the outcome is one fixed value for every capability environment). -/
theorem reconcile_early_exits :
    (∀ env : CatalogEnv, reconcile env .notFound = ⟨⟨false⟩, none, none, []⟩)
    ∧ (∀ (env : CatalogEnv) (e : Err),
        reconcile env (.otherError e) = ⟨⟨true⟩, some e, none, []⟩)
    ∧ ∀ (env : CatalogEnv) (app : Application), app.deletionTimestamp ≠ none →
        reconcile env (.ok app) = ⟨⟨false⟩, none, none, []⟩ := by
  refine ⟨fun env => rfl, fun env e => rfl, fun env app h => ?_⟩
  simp only [reconcile]
  rw [if_pos h]

/-- C4 witness: the three early exits applied through the theorem at concrete
environments, a concrete error and a concrete deletion-marked Application. -/
theorem reconcile_early_exits_checked :
    reconcile trivEnv .notFound = ⟨⟨false⟩, none, none, []⟩
    ∧ reconcile trivEnv (.otherError ⟨"io"⟩) = ⟨⟨true⟩, some ⟨"io"⟩, none, []⟩
    ∧ reconcile trivEnv (.ok appDeleted) = ⟨⟨false⟩, none, none, []⟩ :=
  ⟨reconcile_early_exits.1 trivEnv,
   reconcile_early_exits.2.1 trivEnv ⟨"io"⟩,
   reconcile_early_exits.2.2 trivEnv appDeleted (by decide)⟩

/-- C5: the claim says a pass whose candidate status is deeply structurally
equal to the stored status performs no write; on `appStable`, whose stored
status already equals the recomputed candidate, the pass nevertheless issues
an Application update (writing back an identical object), because the
comparison at line 102 receives a `*ApplicationStatus` and an
`ApplicationStatus` and is false by the dynamic-type check. -/
theorem reconcile_writes_despite_unchanged_status :
    composeNewStatus appStable (objectStatuses trivEnv []) = appStable.status
    ∧ reconcile trivEnv (.ok appStable) = ⟨⟨false⟩, none, some appStable, []⟩ := by
  decide

/-- C6: the object-status list contains exactly the entries of the resources
whose evaluation succeeded, in their original order; concretely, when
evaluation fails on b and succeeds on a and c, the list is exactly a and c. -/
theorem objectStatuses_exactly_successes :
    (∀ (env : CatalogEnv) (resources : List ComponentResource),
      objectStatuses env resources =
        (resources.filter fun r => (env.status r).toOption.isSome).map
          fun r => { mkObjectStatus r with status := (env.status r).toOption.getD "" })
    ∧ objectStatuses envPartial [resA, resB, resC] =
        [{ mkObjectStatus resA with status := StatusReady },
         { mkObjectStatus resC with status := StatusReady }] := by
  exact ⟨objectStatuses_eq_filter_map, by decide⟩

/-- C7: a (group, kind) pair whose resolution fails is logged and skipped
without failing the pass (over only unknown kinds discovery returns the empty
sequence, one skip log per pair and no error), while a list failure on a
resolvable pair stops discovery at once — whatever pairs follow — and
propagates the error, which makes the whole pass requeue. -/
theorem fetch_skips_unknown_propagates_list_errors :
    (∀ (env : CatalogEnv) (selector : LabelSelector) (nspace : String)
        (gks : List GroupKind),
      (∀ gk ∈ gks, env.restMapping gk = none) →
      fetchComponentListResources env gks selector nspace =
        ⟨[], gks.map LogEvent.noMappingForGK, none⟩)
    ∧ (∀ (env : CatalogEnv) (selector : LabelSelector) (nspace : String)
        (gk : GroupKind) (gvk : GroupVersionKind) (e : Err) (rest : List GroupKind),
      env.restMapping gk = some gvk →
      env.list gvk nspace selector.matchLabels = .error e →
      fetchComponentListResources env (gk :: rest) selector nspace = ⟨[], [], some e⟩)
    ∧ ∀ (env : CatalogEnv) (app : Application) (e : Err),
        app.deletionTimestamp = none →
        (fetchComponentListResources env app.spec.componentGroupKinds
          app.spec.selector app.nspace).error = some e →
        reconcile env (.ok app) = ⟨⟨true⟩, some e, none, []⟩ := by
  refine ⟨fun env selector nspace gks h => ?_,
    fun env selector nspace gk gvk e rest h1 h2 => ?_,
    fun env app e hdel hfetch => ?_⟩
  · unfold fetchComponentListResources
    rw [fetchLoop_all_unknown env selector nspace gks [] [] h]
    simp
  · unfold fetchComponentListResources
    simp only [fetchLoop, h1, h2]
  · simp only [reconcile, hdel, ne_eq, not_true_eq_false, if_false, hfetch]

/-- C7 witness: applied through the theorem at an environment resolving no
kind, at one whose listing fails, and at a live Application whose discovery
fails. -/
theorem fetch_skips_unknown_propagates_list_errors_checked :
    fetchComponentListResources trivEnv [gkDeployment] sel1 "ns1" =
      ⟨[], [LogEvent.noMappingForGK gkDeployment], none⟩
    ∧ fetchComponentListResources envListFails [gkDeployment] sel1 "ns1" =
      ⟨[], [], some ⟨"io"⟩⟩
    ∧ reconcile envListFails (.ok appSimple) = ⟨⟨true⟩, some ⟨"io"⟩, none, []⟩ := by
  refine ⟨?_, ?_, ?_⟩
  · exact fetch_skips_unknown_propagates_list_errors.1 trivEnv sel1 "ns1"
      [gkDeployment] (by decide)
  · exact fetch_skips_unknown_propagates_list_errors.2.1 envListFails sel1 "ns1"
      gkDeployment depGVK ⟨"io"⟩ [] rfl rfl
  · exact fetch_skips_unknown_propagates_list_errors.2.2 envListFails appSimple
      ⟨"io"⟩ rfl rfl

/-- C8: every pass that reaches aggregation writes a status whose condition is
Ready with reason ComponentsReady when the aggregate verdict over the stored
component list is true and NotReady with reason ComponentsNotReady when it is
false; and every condition the driver ever writes carries one of those two
reason strings. -/
theorem reconcile_condition_fixed_reasons :
    (∀ (env : CatalogEnv) (app : Application),
      app.deletionTimestamp = none →
      (fetchComponentListResources env app.spec.componentGroupKinds
        app.spec.selector app.nspace).error = none →
      ∃ written, (reconcile env (.ok app)).appWrite = some written ∧
        written.status.condition =
          (if aggregateReady written.status.componentList.objects then
            some ⟨true, "ComponentsReady", "all components ready"⟩
          else some ⟨false, "ComponentsNotReady", "some components not ready"⟩))
    ∧ ∀ (env : CatalogEnv) (getApp : GetResult) (written : Application)
        (c : AggregateCondition),
        (reconcile env getApp).appWrite = some written →
        written.status.condition = some c →
        (c.reason = "ComponentsReady" ∨ c.reason = "ComponentsNotReady") := by
  constructor
  · intro env app hdel hfetch
    rw [reconcile_ok_not_deleted env app hdel hfetch]
    have key : ∀ rs ws : List ComponentResource,
        ∃ written, (reconcileStatusPhase env app rs ws).appWrite = some written ∧
          written.status.condition =
            (if aggregateReady written.status.componentList.objects then
              some ⟨true, "ComponentsReady", "all components ready"⟩
            else some ⟨false, "ComponentsNotReady", "some components not ready"⟩) := by
      intro rs ws
      refine ⟨{ app with status := composeNewStatus app (objectStatuses env rs) },
        reconcileStatusPhase_appWrite env app rs ws, ?_⟩
      show (composeNewStatus app (objectStatuses env rs)).condition =
        if aggregateReady (composeNewStatus app (objectStatuses env rs)).componentList.objects
        then _ else _
      rw [composeNewStatus_condition, composeNewStatus_componentList]
    by_cases how : app.spec.addOwnerRef = true
    · rw [if_pos how]; exact key _ _
    · rw [if_neg how]; exact key _ _
  · intro env getApp written c hw hc
    cases getApp with
    | notFound => simp [reconcile] at hw
    | otherError e => simp [reconcile] at hw
    | ok app =>
      by_cases hdel : app.deletionTimestamp ≠ none
      · rw [show reconcile env (.ok app) = ⟨⟨false⟩, none, none, []⟩ by
          simp only [reconcile]; rw [if_pos hdel]] at hw
        simp at hw
      · push_neg at hdel
        cases hfetch : (fetchComponentListResources env app.spec.componentGroupKinds
            app.spec.selector app.nspace).error with
        | some e =>
          rw [show reconcile env (.ok app) = ⟨⟨true⟩, some e, none, []⟩ by
            simp only [reconcile, hdel, ne_eq, not_true_eq_false, if_false, hfetch]] at hw
          simp at hw
        | none =>
          rw [reconcile_ok_not_deleted env app hdel hfetch] at hw
          have key : ∀ rs ws : List ComponentResource,
              (reconcileStatusPhase env app rs ws).appWrite = some written →
              (c.reason = "ComponentsReady" ∨ c.reason = "ComponentsNotReady") := by
            intro rs ws h
            rw [reconcileStatusPhase_appWrite] at h
            have hwr := (Option.some.inj h).symm
            subst hwr
            simp only [composeNewStatus_condition] at hc
            by_cases hagg : aggregateReady (objectStatuses env rs) = true
            · rw [if_pos hagg] at hc
              left
              rw [← Option.some.inj hc]
            · rw [if_neg hagg] at hc
              right
              rw [← Option.some.inj hc]
          by_cases how : app.spec.addOwnerRef = true
          · rw [if_pos how] at hw; exact key _ _ hw
          · rw [if_neg how] at hw; exact key _ _ hw

/-- C8 witness: a pass over a live Application with successful discovery
issues a write (obtained through the theorem). -/
theorem reconcile_condition_fixed_reasons_checked :
    (reconcile envTwoItems (.ok appSimple)).appWrite ≠ none := by
  obtain ⟨w, hw, -⟩ := reconcile_condition_fixed_reasons.1 envTwoItems appSimple rfl rfl
  simp [hw]

/-- C9 counterexample: two Applications with identical specs and identical
stored statuses, reconciled against the same environment (so reading
identical component resources), are written back with different statuses —
the candidate status also depends on the generation counter, copied into the
observed generation. -/
theorem reconcile_status_depends_on_generation :
    appGen1.spec = appGen2.spec ∧ appGen1.status = appGen2.status
    ∧ Option.map Application.status (reconcile trivEnv (.ok appGen1)).appWrite ≠
      Option.map Application.status (reconcile trivEnv (.ok appGen2)).appWrite := by
  decide

/-- C9 as amended: the Application write issued by a pass is a deterministic
function of the Application as read (identity, spec, generation, stored
status) and of the read capabilities (REST mapping, listing, status
evaluation); it does not depend on any other part of the environment, in
particular not on the write results. -/
theorem reconcile_write_determined_by_reads :
    ∀ (env₁ env₂ : CatalogEnv) (getApp : GetResult),
      env₁.restMapping = env₂.restMapping →
      env₁.list = env₂.list →
      env₁.status = env₂.status →
      (reconcile env₁ getApp).appWrite = (reconcile env₂ getApp).appWrite := by
  intro env₁ env₂ getApp h1 h2 h3
  cases getApp with
  | notFound => rfl
  | otherError e => rfl
  | ok app =>
    by_cases hdel : app.deletionTimestamp ≠ none
    · simp only [reconcile]
      rw [if_pos hdel, if_pos hdel]
    · push_neg at hdel
      have hfeq : fetchComponentListResources env₁ app.spec.componentGroupKinds
            app.spec.selector app.nspace
          = fetchComponentListResources env₂ app.spec.componentGroupKinds
            app.spec.selector app.nspace :=
        fetchLoop_congr env₁ env₂ app.spec.selector app.nspace h1 h2 _ [] []
      cases hfetch : (fetchComponentListResources env₂ app.spec.componentGroupKinds
          app.spec.selector app.nspace).error with
      | some e =>
        have hfetch1 : (fetchComponentListResources env₁ app.spec.componentGroupKinds
            app.spec.selector app.nspace).error = some e := by rw [hfeq]; exact hfetch
        simp only [reconcile, hdel, ne_eq, not_true_eq_false, if_false, hfetch, hfetch1]
      | none =>
        have hfetch1 : (fetchComponentListResources env₁ app.spec.componentGroupKinds
            app.spec.selector app.nspace).error = none := by rw [hfeq]; exact hfetch
        rw [reconcile_ok_not_deleted env₁ app hdel hfetch1,
          reconcile_ok_not_deleted env₂ app hdel hfetch]
        by_cases how : app.spec.addOwnerRef = true
        · rw [if_pos how, if_pos how, reconcileStatusPhase_appWrite,
            reconcileStatusPhase_appWrite]
          have hrs : (setOwnerRefForResources env₁ (applicationOwnerRef app)
                (fetchComponentListResources env₁ app.spec.componentGroupKinds
                  app.spec.selector app.nspace).resources).resources
              = (setOwnerRefForResources env₂ (applicationOwnerRef app)
                (fetchComponentListResources env₂ app.spec.componentGroupKinds
                  app.spec.selector app.nspace).resources).resources := by
            rw [setOwnerRefForResources_resources, setOwnerRefForResources_resources, hfeq]
          rw [hrs, objectStatuses_congr env₁ env₂ h3]
        · rw [if_neg how, if_neg how, reconcileStatusPhase_appWrite,
            reconcileStatusPhase_appWrite, hfeq, objectStatuses_congr env₁ env₂ h3]

/-- C9 witness: the same Application reconciled against two environments that
agree on reads and differ on the write result is written identically
(obtained through the theorem). -/
theorem reconcile_write_determined_by_reads_checked :
    (reconcile trivEnv (.ok appGen1)).appWrite =
      (reconcile envWriteFails (.ok appGen1)).appWrite :=
  reconcile_write_determined_by_reads trivEnv envWriteFails (.ok appGen1) rfl rfl rfl

/-- C10: `setOwnerRefForResources` returns nil for every environment, owner
reference and resource list, so the requeue branch the caller guards on it is
unreachable: once a pass survives discovery, any returned error originates
from the final Application update. -/
theorem setOwnerRef_errors_unreachable :
    (∀ (env : CatalogEnv) (ownerRef : OwnerReference)
        (resources : List ComponentResource),
      (setOwnerRefForResources env ownerRef resources).error = none)
    ∧ ∀ (env : CatalogEnv) (app : Application) (e : Err),
        app.deletionTimestamp = none →
        (fetchComponentListResources env app.spec.componentGroupKinds
          app.spec.selector app.nspace).error = none →
        (reconcile env (.ok app)).error = some e →
        ∃ written, (reconcile env (.ok app)).appWrite = some written
          ∧ env.updateApp written = some e := by
  refine ⟨setOwnerRefForResources_error, fun env app e hdel hfetch herr => ?_⟩
  rw [reconcile_ok_not_deleted env app hdel hfetch] at herr ⊢
  have key : ∀ rs ws : List ComponentResource,
      (reconcileStatusPhase env app rs ws).error = some e →
      ∃ written, (reconcileStatusPhase env app rs ws).appWrite = some written
        ∧ env.updateApp written = some e := by
    intro rs ws h
    rw [reconcileStatusPhase_eq] at h ⊢
    cases hup : env.updateApp
        { app with status := composeNewStatus app (objectStatuses env rs) } with
    | some e2 =>
      rw [hup] at h
      have he : e2 = e := Option.some.inj h
      exact ⟨_, rfl, by rw [hup, he]⟩
    | none =>
      rw [hup] at h
      exact Option.noConfusion h
  by_cases how : app.spec.addOwnerRef = true
  · rw [if_pos how] at herr ⊢; exact key _ _ herr
  · rw [if_neg how] at herr ⊢; exact key _ _ herr

/-- C10 witness: the ownership step's returned error at a concrete input, and
a pass whose only error source is the failing Application update (obtained
through the theorem). -/
theorem setOwnerRef_errors_unreachable_checked :
    (setOwnerRefForResources trivEnv ownerRefApp1 [resA]).error = none
    ∧ (reconcile envWriteFails (.ok appGen1)).appWrite ≠ none := by
  refine ⟨setOwnerRef_errors_unreachable.1 trivEnv ownerRefApp1 [resA], ?_⟩
  obtain ⟨w, hw, -⟩ := setOwnerRef_errors_unreachable.2 envWriteFails appGen1
    ⟨"conflict"⟩ rfl rfl (by decide)
  simp [hw]
